import Mathlib

/-!
Verification of the Risk-Engineering repository's Monte Carlo notebooks.

The repository contains two computational notebooks:

* `monte-carlo-hoop-strength.ipynb` — estimates the probability that the hoop
  stress `P·r/W` of a pressurized cylindrical vessel exceeds its yield
  strength, by Monte Carlo sampling (an explicit loop over `N = 1000` trials,
  and a vectorized variant over `N = 10000` trials).
* `monte-carlo-integration.ipynb` — three definite integrals, each computed
  analytically (via a symbolic engine) and by sample-mean Monte Carlo
  estimation with `N = 100000` uniform samples.

The random-sampling capability is external to the repository (scipy / numpy);
we make each sample an explicit parameter (a stream `ℕ → ℚ` indexed by trial
number), so every definition below is a function of the sampled values.  The
hoop-strength notebook is modelled over `ℚ` (its arithmetic is exact on the
inputs of interest); the integration notebook over `ℝ` (it uses `sin`/`cos`).
-/

namespace RiskEng

/-! ### Hoop-strength notebook: per-trial computations -/

/-- `calculate_stress` from the hoop-strength notebook.  The body is
`P = 10; radius = Normal(60, 3).rvs(); W = Normal(4, 0.2).rvs(); P * radius / W`;
the two normal draws are made explicit parameters `radius` and `W`. -/
def calculate_stress (radius W : ℚ) : ℚ :=
  let P : ℚ := 10
  P * radius / W

/-- `calculate_yield_strength` from the notebook: returns one draw from
`Normal(200, 20)`; with the draw made explicit it is the identity on it. -/
def calculate_yield_strength (sample : ℚ) : ℚ := sample

/-- Division with Python semantics: `a / 0` raises `ZeroDivisionError`,
modelled as `none`. -/
def qdiv (a b : ℚ) : Option ℚ :=
  if b = 0 then none else some (a / b)

/-- `calculate_stress` under Python's fallible division semantics: a sampled
wall thickness of exactly `0` makes `P * radius / W` raise, i.e. `none`.
There is no other branch in the function. -/
def calculate_stress_checked (radius W : ℚ) : Option ℚ :=
  let P : ℚ := 10
  qdiv (P * radius) W

/-! ### Hoop-strength notebook: the simulation loop cell -/

/-- The mutable state of the simulation loop cell: the failure counter and
the two result sequences `stresses`, `yield_strengths` (indexed by trial). -/
structure SimState where
  failures : ℕ
  stresses : List ℚ
  yield_strengths : List ℚ
  deriving Repr, DecidableEq

/-- One iteration of the loop body:
`stresses[i] = calculate_stress(); yield_strengths[i] = calculate_yield_strength();`
`if stresses[i] > yield_strengths[i]: failures += 1`. -/
def simTrial (s : SimState) (radius W ys : ℚ) : SimState :=
  let stress := calculate_stress radius W
  let strength := calculate_yield_strength ys
  { failures := if stress > strength then s.failures + 1 else s.failures
    stresses := s.stresses ++ [stress]
    yield_strengths := s.yield_strengths ++ [strength] }

/-- The simulation loop cell: `for i in range(N)` over the loop body, starting
from `failures = 0` and empty result sequences.  The three sample streams
(radius, wall thickness, yield strength per trial) are explicit. -/
def run_simulation (N : ℕ) (radiusS WS ysS : ℕ → ℚ) : SimState :=
  (List.range N).foldl
    (fun s i => simTrial s (radiusS i) (WS i) (ysS i))
    ⟨0, [], []⟩

/-- The summary cell `failures / float(N)`, with `ℚ` division (total). -/
def summarize (failures N : ℕ) : ℚ :=
  (failures : ℚ) / (N : ℚ)

/-- The summary cell `failures / float(N)` under Python's fallible division
semantics: dividing by `float(0)` raises `ZeroDivisionError` (`none`). -/
def summarize_checked (failures N : ℕ) : Option ℚ :=
  qdiv (failures : ℚ) (N : ℚ)

/-- Specification-side count: the number of trials `i < N` whose stress value
strictly exceeds their yield-strength value. -/
def failure_count (N : ℕ) (radiusS WS ysS : ℕ → ℚ) : ℕ :=
  ((List.range N).filter
    (fun i => calculate_stress (radiusS i) (WS i) > ysS i)).length

/-- The vectorized cell: three batches of `N` samples, the elementwise array
`P * radius / W`, an elementwise strict comparison against the yield-strength
batch, and `.sum()` of the boolean vector divided by `float(N)`. -/
def run_simulation_vectorized (N : ℕ) (radiusS WS ysS : ℕ → ℚ) : ℚ :=
  let P : ℚ := 10
  let exceeds := (List.range N).map (fun i => decide (P * radiusS i / WS i > ysS i))
  ((exceeds.count true : ℕ) : ℚ) / (N : ℚ)

/-- The failure counter of the loop, abstracted over an arbitrary list of
per-trial (stress, yield strength) pairs in place of the `range N` indexing. -/
def count_failures (trials : List (ℚ × ℚ)) : ℕ :=
  trials.foldl (fun failures t => if t.1 > t.2 then failures + 1 else failures) 0

/-- The per-trial (stress, yield strength) pairs fed to the loop. -/
def trial_pairs (N : ℕ) (radiusS WS ysS : ℕ → ℚ) : List (ℚ × ℚ) :=
  (List.range N).map (fun i => (calculate_stress (radiusS i) (WS i), ysS i))

/-! ### Supporting lemmas about the loop -/

/-- The failure counter of a fold over any index list is the initial counter
plus the number of indices whose stress exceeds their yield strength. -/
theorem foldl_simTrial_failures (radiusS WS ysS : ℕ → ℚ) (l : List ℕ) (s : SimState) :
    ((l.foldl (fun s i => simTrial s (radiusS i) (WS i) (ysS i)) s).failures)
      = s.failures
        + (l.filter (fun i => calculate_stress (radiusS i) (WS i) > ysS i)).length := by
  induction l generalizing s with
  | nil => simp
  | cons a t ih =>
      simp only [List.foldl_cons, List.filter_cons, ih]
      by_cases h : calculate_stress (radiusS a) (WS a) > ysS a
      · simp [simTrial, calculate_yield_strength, h]
        omega
      · simp [simTrial, calculate_yield_strength, h]

/-- The loop's failure counter equals the specification-side count. -/
theorem run_simulation_failures (N : ℕ) (radiusS WS ysS : ℕ → ℚ) :
    (run_simulation N radiusS WS ysS).failures = failure_count N radiusS WS ysS := by
  simpa [run_simulation, failure_count] using
    foldl_simTrial_failures radiusS WS ysS (List.range N) ⟨0, [], []⟩

/-- The specification-side count never exceeds the number of trials. -/
theorem failure_count_le (N : ℕ) (radiusS WS ysS : ℕ → ℚ) :
    failure_count N radiusS WS ysS ≤ N := by
  calc failure_count N radiusS WS ysS
      ≤ (List.range N).length := List.length_filter_le _ _
    _ = N := List.length_range N

/-- `count_failures` is the number of pairs whose first component strictly
exceeds the second, for every initial list. -/
theorem count_failures_eq_countP (trials : List (ℚ × ℚ)) :
    count_failures trials = trials.countP (fun t => t.1 > t.2) := by
  have key : ∀ (l : List (ℚ × ℚ)) (a : ℕ),
      l.foldl (fun failures t => if t.1 > t.2 then failures + 1 else failures) a
        = a + l.countP (fun t => t.1 > t.2) := by
    intro l
    induction l with
    | nil => simp
    | cons p t ih =>
        intro a
        by_cases h : p.1 > p.2
        · simp [List.countP_cons, h, ih]
          omega
        · simp [List.countP_cons, h, ih]
  simpa [count_failures] using key trials 0

/-- The loop's failure counter is `count_failures` of the per-trial pairs. -/
theorem run_simulation_failures_eq_count_failures
    (N : ℕ) (radiusS WS ysS : ℕ → ℚ) :
    (run_simulation N radiusS WS ysS).failures
      = count_failures (trial_pairs N radiusS WS ysS) := by
  rw [run_simulation_failures, count_failures_eq_countP, trial_pairs,
    List.countP_map, failure_count, ← List.countP_eq_length_filter]
  rfl

/-! ### Claim C1: the hoop-stress computation -/

/-- **C1.** `calculate_stress` returns `10 × radius / thickness` for its two
sampled inputs; with the deterministic values `P = 10`, `r = 60`, `W = 4` it
yields exactly `150`. -/
theorem calculate_stress_formula :
    calculate_stress 60 4 = 150
      ∧ ∀ radius W : ℚ, calculate_stress radius W = 10 * radius / W := by
  constructor
  · norm_num [calculate_stress]
  · intro radius W
    rfl

/-! ### Claim C2: the failure-probability estimate -/

/-- **C2.** For every trial count `N ≥ 1` and all sample streams, the estimate
produced by `run_simulation` followed by `summarize` equals exactly the count
of trials whose stress strictly exceeds their yield strength, divided by `N`,
and this value lies in `[0, 1]`. -/
theorem failure_probability_estimate
    (N : ℕ) (radiusS WS ysS : ℕ → ℚ) (hN : 1 ≤ N) :
    summarize (run_simulation N radiusS WS ysS).failures N
        = (failure_count N radiusS WS ysS : ℚ) / (N : ℚ)
      ∧ 0 ≤ summarize (run_simulation N radiusS WS ysS).failures N
      ∧ summarize (run_simulation N radiusS WS ysS).failures N ≤ 1 := by
  have hNQ : (0 : ℚ) < (N : ℚ) := by
    exact_mod_cast Nat.lt_of_lt_of_le Nat.zero_lt_one hN
  have hfail := run_simulation_failures N radiusS WS ysS
  refine ⟨by rw [summarize, hfail], ?_, ?_⟩
  · exact div_nonneg (by positivity) hNQ.le
  · rw [summarize, hfail, div_le_one hNQ]
    exact_mod_cast failure_count_le N radiusS WS ysS

/-- Witness for C2 at `N = 1` with the deterministic samples
`radius = 60`, `W = 4`, `yield strength = 200` (stress `150 < 200`). -/
theorem failure_probability_estimate_witness :
    summarize (run_simulation 1 (fun _ => 60) (fun _ => 4) (fun _ => 200)).failures 1
        = (failure_count 1 (fun _ => 60) (fun _ => 4) (fun _ => 200) : ℚ) / (1 : ℕ)
      ∧ 0 ≤ summarize (run_simulation 1 (fun _ => 60) (fun _ => 4) (fun _ => 200)).failures 1
      ∧ summarize (run_simulation 1 (fun _ => 60) (fun _ => 4) (fun _ => 200)).failures 1 ≤ 1 :=
  failure_probability_estimate 1 (fun _ => 60) (fun _ => 4) (fun _ => 200) (le_refl 1)

/-! ### Claim C3: vectorized vs. iterative -/

/-- **C3.** Given the same sampled radius, thickness and yield-strength values
per trial, the vectorized batch computation and the per-trial loop return
equal failure-probability estimates, for every `N`. -/
theorem vectorized_iterative_agree (N : ℕ) (radiusS WS ysS : ℕ → ℚ) :
    run_simulation_vectorized N radiusS WS ysS
      = summarize (run_simulation N radiusS WS ysS).failures N := by
  have key : ∀ (p : ℕ → Prop) [DecidablePred p] (l : List ℕ),
      (l.map (fun i => decide (p i))).count true = l.countP (fun i => decide (p i)) := by
    intro p _ l
    induction l with
    | nil => rfl
    | cons a t ih =>
        by_cases h : p a <;>
          simp [List.count_cons, List.countP_cons, h, ih]
  rw [summarize, run_simulation_failures, run_simulation_vectorized]
  congr 2
  rw [failure_count, ← List.countP_eq_length_filter]
  simpa [calculate_stress] using
    key (fun i => 10 * radiusS i / WS i > ysS i) (List.range N)

/-! ### Claim C8: no guard on the sampled thickness -/

/-- **C8.** The stress computation has no guard on the sampled wall
thickness: a thickness sample of exactly `0` makes the division undefined
(a raised `ZeroDivisionError`, modelled as `none`); every nonzero thickness
— however negative — is accepted by the computation (no branch rejects it);
and a negative thickness with a positive radius yields a negative stress. -/
theorem stress_thickness_unguarded :
    (∀ radius : ℚ, calculate_stress_checked radius 0 = none)
      ∧ (∀ radius W : ℚ, W ≠ 0 →
          calculate_stress_checked radius W = some (calculate_stress radius W))
      ∧ (∀ radius W : ℚ, 0 < radius → W < 0 → calculate_stress radius W < 0) := by
  refine ⟨fun radius => rfl, fun radius W hW => ?_, fun radius W hr hW => ?_⟩
  · simp [calculate_stress_checked, qdiv, hW, calculate_stress]
  · have hnum : (0 : ℚ) < 10 * radius := by linarith
    exact div_neg_of_pos_of_neg hnum hW

/-- Witness for C8 at radius `60` with thickness samples `0` and `-1`. -/
theorem stress_thickness_unguarded_witness :
    calculate_stress_checked 60 0 = none
      ∧ calculate_stress_checked 60 (-1) = some (calculate_stress 60 (-1))
      ∧ calculate_stress 60 (-1) < 0 :=
  ⟨stress_thickness_unguarded.1 60,
    stress_thickness_unguarded.2.1 60 (-1) (by norm_num),
    stress_thickness_unguarded.2.2 60 (-1) (by norm_num) (by norm_num)⟩

/-! ### Claim C9: the zero-trial edge case -/

/-- **C9.** With `N = 0` the loop performs no trials, so the failure counter
is `0`, and the failure-probability computation `failures / float(N)` is the
undefined division `0 / 0`: under Python's division semantics it is flagged
as undefined (`none`, a raised `ZeroDivisionError`) rather than producing a
numeric value. -/
theorem simulation_zero_trials (radiusS WS ysS : ℕ → ℚ) :
    (run_simulation 0 radiusS WS ysS).failures = 0
      ∧ summarize_checked (run_simulation 0 radiusS WS ysS).failures 0 = none := by
  constructor
  · rfl
  · rfl

/-! ### Claim C10: order-invariance of the failure count -/

/-- **C10.** For every fixed list of per-trial (stress, yield strength)
pairs, the failure count accumulated by the simulation loop is invariant
under any permutation of the trials: the loop's counter equals
`count_failures` of any permutation of its per-trial pairs, and hence the
failure-probability estimate is the same. -/
theorem failure_count_perm_invariant
    (N : ℕ) (radiusS WS ysS : ℕ → ℚ) (l' : List (ℚ × ℚ))
    (h : (trial_pairs N radiusS WS ysS).Perm l') :
    (run_simulation N radiusS WS ysS).failures = count_failures l'
      ∧ summarize (run_simulation N radiusS WS ysS).failures N
          = summarize (count_failures l') N := by
  have hcount : (run_simulation N radiusS WS ysS).failures = count_failures l' := by
    rw [run_simulation_failures_eq_count_failures, count_failures_eq_countP,
      count_failures_eq_countP]
    exact h.countP_eq _
  exact ⟨hcount, by rw [hcount]⟩

/-- Witness for C10 at `N = 2`: the first trial fails (stress `200 > 190`),
the second does not (stress `150 < 190`); the two trials are swapped. -/
theorem failure_count_perm_invariant_witness :
    (run_simulation 2 (fun i => if i = 0 then 80 else 60) (fun _ => 4)
        (fun _ => 190)).failures
        = count_failures [(150, 190), (200, 190)]
      ∧ summarize (run_simulation 2 (fun i => if i = 0 then 80 else 60) (fun _ => 4)
            (fun _ => 190)).failures 2
          = summarize (count_failures [(150, 190), (200, 190)]) 2 :=
  failure_count_perm_invariant 2 (fun i => if i = 0 then 80 else 60) (fun _ => 4)
    (fun _ => 190) [(150, 190), (200, 190)]
    (by
      have e : trial_pairs 2 (fun i => if i = 0 then 80 else 60) (fun _ => 4)
          (fun _ => 190) = [(200, 190), (150, 190)] := by
        norm_num [trial_pairs, List.range_succ, calculate_stress]
      rw [e]
      exact List.Perm.swap (150, 190) (200, 190) [])

/-! ### Integration notebook: definitions

Each Monte Carlo cell runs `accum = 0; for i in range(N): accum += f(sample_i)`
and returns `measure * accum / float(N)`.  The uniform samples are explicit
streams.  The analytical cells call the symbolic engine for an antiderivative
and substitute the bounds; the antiderivatives the engine returns for the
first two (elementary) problems are embedded directly and proved correct
(`HasDerivAt`) below. -/

/-- Number of sample points used by every Monte Carlo cell of the
integration notebook (`N = 100000`). -/
def N_samples : ℕ := 100000

/-- First Monte Carlo cell: integrand `x**2`, samples `uniform(1, 5)`,
`measure = 5 - 1`, estimate `measure * accum / float(N)`. -/
noncomputable def mc_integral_1 (N : ℕ) (xs : ℕ → ℝ) : ℝ :=
  let accum := (List.range N).foldl (fun accum i => accum + xs i ^ 2) 0
  let measure : ℝ := 5 - 1
  measure * accum / (N : ℝ)

/-- Second Monte Carlo cell: integrand `x**2 + 4*x*sin(x)`, samples
`uniform(2, 3)`, `measure = 3 - 2`. -/
noncomputable def mc_integral_2 (N : ℕ) (xs : ℕ → ℝ) : ℝ :=
  let accum := (List.range N).foldl
    (fun accum i => accum + (xs i ^ 2 + 4 * xs i * Real.sin (xs i))) 0
  let measure : ℝ := 3 - 2
  measure * accum / (N : ℝ)

/-- 2D Monte Carlo cell: integrand `cos(x**4) + 3*y*y`, samples
`x = uniform(4, 6)`, `y = uniform(0, 1)` per trial, `measure = 2 * 1`. -/
noncomputable def mc_integral_3 (N : ℕ) (xs ys : ℕ → ℝ) : ℝ :=
  let accum := (List.range N).foldl
    (fun accum i => accum + (Real.cos (xs i ^ 4) + 3 * ys i * ys i)) 0
  let measure : ℝ := 2 * 1
  measure * accum / (N : ℝ)

/-- Antiderivative of `x**2` returned by `sympy.integrate(x**2)`. -/
def integral_x2 (x : ℚ) : ℚ := x ^ 3 / 3

/-- First analytical cell: `integral.subs(x, 5) - integral.subs(x, 1)`. -/
def analytical_1 : ℚ := integral_x2 5 - integral_x2 1

/-- Round-to-nearest conversion of a rational in `[32, 64)` to an IEEE-754
double: such a double is a multiple of `2⁻⁴⁷` (53-bit significand, binary
exponent 5), so `float(q)` is the nearest multiple of `2⁻⁴⁷`. -/
def toFloat47 (q : ℚ) : ℚ := (round (q * 2 ^ 47) : ℤ) / 2 ^ 47

/-- Antiderivative of `x**2 + 4*x*sin(x)` returned by
`sympy.integrate(x**2 + 4*x*sympy.sin(x))`:
`d1 = x³/3 + 4·(-x·cos x + sin x)`. -/
noncomputable def d1_second (x : ℝ) : ℝ :=
  x ^ 3 / 3 + 4 * (-(x * Real.cos x) + Real.sin x)

/-- Second analytical cell: `sol = d1.subs(x, 3) - d1.subs(x, 2)`. -/
noncomputable def analytical_2 : ℝ := d1_second 3 - d1_second 2

/-! ### Claim C4: the sample-mean estimator -/

/-- A fold accumulating `f` over a list is the sum of `f` over it. -/
theorem foldl_add_eq_sum (f : ℕ → ℝ) (l : List ℕ) (a : ℝ) :
    l.foldl (fun accum i => accum + f i) a = a + (l.map f).sum := by
  induction l generalizing a with
  | nil => simp
  | cons x t ih => simp [ih, add_assoc]

/-- **C4.** Each Monte Carlo cell returns
`measure × (accumulated sum of integrand evaluations / N)`: for the 1D
interval `[1,5]` the measure is `5 - 1`; for the 2D rectangle `[4,6]×[0,1]`
the measure `2 * 1` is the product of the interval widths
`(6 - 4) * (1 - 0)`; and the demonstrated sample count is `N = 100000`. -/
theorem mc_sample_mean_estimator (N : ℕ) (xs ys : ℕ → ℝ) :
    mc_integral_1 N xs
        = (5 - 1) * (((List.range N).map (fun i => xs i ^ 2)).sum / (N : ℝ))
      ∧ mc_integral_3 N xs ys
          = ((6 - 4) * (1 - 0))
            * (((List.range N).map
                (fun i => Real.cos (xs i ^ 4) + 3 * ys i * ys i)).sum / (N : ℝ))
      ∧ N_samples = 100000 := by
  refine ⟨?_, ?_, rfl⟩
  · rw [mc_integral_1, foldl_add_eq_sum]
    ring
  · rw [mc_integral_3, foldl_add_eq_sum]
    ring

/-! ### Claim C5: the first analytical integral -/

/-- **C5.** The analytical integration of `x²` over `[1,5]` returns exactly
`124/3`; its conversion to an IEEE-754 double is the same double as the one
denoted by the decimal literal `41.333333333333336`. -/
theorem analytical_integral_x2 :
    analytical_1 = 124 / 3
      ∧ toFloat47 analytical_1 = toFloat47 (41333333333333336 / 10 ^ 15) := by
  constructor
  · norm_num [analytical_1, integral_x2]
  · norm_num [analytical_1, integral_x2, toFloat47, round_eq]

/-! ### Taylor tails of `sin` and `cos`

To certify the numeric value of the second analytical integral we bound
`sin` and `cos` at `2` and `3` by partial sums of their power series
(`Real.hasSum_sin` / `Real.hasSum_cos`), with the tail dominated by a
geometric series. -/

/-- The tail of a series dominated termwise by `c * r ^ n` is bounded by
`c * (1 - r)⁻¹`. -/
theorem abs_sub_sum_le_of_geom_bound (f : ℕ → ℝ) (s : ℝ) (hs : HasSum f s)
    (k : ℕ) (c r : ℝ) (h0 : 0 ≤ r) (h1 : r < 1)
    (hb : ∀ n, |f (n + k)| ≤ c * r ^ n) :
    |s - ∑ n ∈ Finset.range k, f n| ≤ c * (1 - r)⁻¹ := by
  have hg : Summable (fun n => c * r ^ n) :=
    (summable_geometric_of_lt_one h0 h1).mul_left c
  have hnorm : Summable (fun n => ‖f (n + k)‖) := by
    refine Summable.of_nonneg_of_le (fun n => norm_nonneg _) ?_ hg
    intro n
    simpa [Real.norm_eq_abs] using hb n
  have habs : Summable (fun n => |f (n + k)|) := by
    simpa [Real.norm_eq_abs] using hnorm
  have htail : HasSum (fun n => f (n + k)) (s - ∑ n ∈ Finset.range k, f n) :=
    (hasSum_nat_add_iff' k).mpr hs
  have h2 : ‖tsum (fun n => f (n + k))‖ ≤ tsum (fun n => ‖f (n + k)‖) :=
    norm_tsum_le_tsum_norm hnorm
  calc |s - ∑ n ∈ Finset.range k, f n|
      = |tsum (fun n => f (n + k))| := by rw [htail.tsum_eq]
    _ ≤ tsum (fun n => |f (n + k)|) := by simpa [Real.norm_eq_abs] using h2
    _ ≤ tsum (fun n => c * r ^ n) := tsum_le_tsum (fun n => hb n) habs hg
    _ = c * tsum (fun n => r ^ n) := tsum_mul_left
    _ = c * (1 - r)⁻¹ := by rw [tsum_geometric_of_lt_one h0 h1]

/-- Geometric domination of the `sin`-series terms past index `k`. -/
theorem sin_term_bound (x : ℝ) (hx : 0 ≤ x) (k : ℕ) (r : ℝ) (h0 : 0 ≤ r)
    (hr : x ^ 2 ≤ r * ((2 * k + 2) * (2 * k + 3))) (n : ℕ) :
    |(-1 : ℝ) ^ (n + k) * x ^ (2 * (n + k) + 1) / (Nat.factorial (2 * (n + k) + 1) : ℝ)|
      ≤ x ^ (2 * k + 1) / (Nat.factorial (2 * k + 1) : ℝ) * r ^ n := by
  have habs : ∀ m : ℕ,
      |(-1 : ℝ) ^ m * x ^ (2 * m + 1) / (Nat.factorial (2 * m + 1) : ℝ)|
        = x ^ (2 * m + 1) / (Nat.factorial (2 * m + 1) : ℝ) := by
    intro m
    have hf : (0 : ℝ) < (Nat.factorial (2 * m + 1) : ℝ) := by
      exact_mod_cast Nat.factorial_pos (2 * m + 1)
    rw [abs_div, abs_mul, abs_pow, abs_pow, abs_neg, abs_one, one_pow, one_mul,
      abs_of_nonneg hx, abs_of_pos hf]
  rw [habs]
  induction n with
  | zero => simp
  | succ n ih =>
      have hstep :
          x ^ (2 * (n + 1 + k) + 1) / (Nat.factorial (2 * (n + 1 + k) + 1) : ℝ)
            = x ^ (2 * (n + k) + 1) / (Nat.factorial (2 * (n + k) + 1) : ℝ)
              * (x ^ 2 / ((2 * (n + k) + 2) * (2 * (n + k) + 3))) := by
        have e1 : (2 * (n + 1 + k) + 1) = ((2 * (n + k) + 1) + 1) + 1 := by omega
        rw [e1, Nat.factorial_succ, Nat.factorial_succ]
        have hf : (Nat.factorial (2 * (n + k) + 1) : ℝ) ≠ 0 := by
          exact_mod_cast (Nat.factorial_pos (2 * (n + k) + 1)).ne'
        push_cast
        field_simp
        ring
      have hfactor :
          x ^ 2 / ((2 * (n + k) + 2) * (2 * (n + k) + 3) : ℝ) ≤ r := by
        have hD : (0 : ℝ) < ((2 * (n + k) + 2) * (2 * (n + k) + 3) : ℝ) := by
          positivity
        rw [div_le_iff₀ hD]
        have hmono : (r * ((2 * k + 2) * (2 * k + 3)) : ℝ)
            ≤ r * ((2 * (n + k) + 2) * (2 * (n + k) + 3)) := by
          have : ((2 * k + 2) * (2 * k + 3) : ℝ)
              ≤ (2 * (n + k) + 2) * (2 * (n + k) + 3) := by
            have hn : (0 : ℝ) ≤ (n : ℝ) := Nat.cast_nonneg n
            nlinarith
          nlinarith
        linarith
      have hterm : (0 : ℝ) ≤ x ^ (2 * (n + k) + 1) / (Nat.factorial (2 * (n + k) + 1) : ℝ) := by
        have hf : (0 : ℝ) < (Nat.factorial (2 * (n + k) + 1) : ℝ) := by
          exact_mod_cast Nat.factorial_pos (2 * (n + k) + 1)
        positivity
      calc x ^ (2 * (n + 1 + k) + 1) / (Nat.factorial (2 * (n + 1 + k) + 1) : ℝ)
          = x ^ (2 * (n + k) + 1) / (Nat.factorial (2 * (n + k) + 1) : ℝ)
              * (x ^ 2 / ((2 * (n + k) + 2) * (2 * (n + k) + 3))) := hstep
        _ ≤ x ^ (2 * (n + k) + 1) / (Nat.factorial (2 * (n + k) + 1) : ℝ) * r :=
            mul_le_mul_of_nonneg_left hfactor hterm
        _ ≤ x ^ (2 * k + 1) / (Nat.factorial (2 * k + 1) : ℝ) * r ^ n * r :=
            mul_le_mul_of_nonneg_right ih h0
        _ = x ^ (2 * k + 1) / (Nat.factorial (2 * k + 1) : ℝ) * r ^ (n + 1) := by ring

/-- Taylor bound for `sin`: the partial sum of the first `k` series terms is
within `x^(2k+1)/(2k+1)! · (1-r)⁻¹` of `sin x`. -/
theorem sin_taylor_tail (x : ℝ) (hx : 0 ≤ x) (k : ℕ) (r : ℝ) (h0 : 0 ≤ r)
    (h1 : r < 1) (hr : x ^ 2 ≤ r * ((2 * k + 2) * (2 * k + 3))) :
    |Real.sin x - ∑ n ∈ Finset.range k, (-1 : ℝ) ^ n * x ^ (2 * n + 1) / (Nat.factorial (2 * n + 1) : ℝ)|
      ≤ x ^ (2 * k + 1) / (Nat.factorial (2 * k + 1) : ℝ) * (1 - r)⁻¹ :=
  abs_sub_sum_le_of_geom_bound _ _ (Real.hasSum_sin x) k _ r h0 h1
    (sin_term_bound x hx k r h0 hr)

/-- Geometric domination of the `cos`-series terms past index `k`. -/
theorem cos_term_bound (x : ℝ) (hx : 0 ≤ x) (k : ℕ) (r : ℝ) (h0 : 0 ≤ r)
    (hr : x ^ 2 ≤ r * ((2 * k + 1) * (2 * k + 2))) (n : ℕ) :
    |(-1 : ℝ) ^ (n + k) * x ^ (2 * (n + k)) / (Nat.factorial (2 * (n + k)) : ℝ)|
      ≤ x ^ (2 * k) / (Nat.factorial (2 * k) : ℝ) * r ^ n := by
  have habs : ∀ m : ℕ,
      |(-1 : ℝ) ^ m * x ^ (2 * m) / (Nat.factorial (2 * m) : ℝ)|
        = x ^ (2 * m) / (Nat.factorial (2 * m) : ℝ) := by
    intro m
    have hf : (0 : ℝ) < (Nat.factorial (2 * m) : ℝ) := by
      exact_mod_cast Nat.factorial_pos (2 * m)
    rw [abs_div, abs_mul, abs_pow, abs_pow, abs_neg, abs_one, one_pow, one_mul,
      abs_of_nonneg hx, abs_of_pos hf]
  rw [habs]
  induction n with
  | zero => simp
  | succ n ih =>
      have hstep :
          x ^ (2 * (n + 1 + k)) / (Nat.factorial (2 * (n + 1 + k)) : ℝ)
            = x ^ (2 * (n + k)) / (Nat.factorial (2 * (n + k)) : ℝ)
              * (x ^ 2 / ((2 * (n + k) + 1) * (2 * (n + k) + 2))) := by
        have e1 : (2 * (n + 1 + k)) = ((2 * (n + k)) + 1) + 1 := by omega
        rw [e1, Nat.factorial_succ, Nat.factorial_succ]
        have hf : (Nat.factorial (2 * (n + k)) : ℝ) ≠ 0 := by
          exact_mod_cast (Nat.factorial_pos (2 * (n + k))).ne'
        push_cast
        field_simp
        ring
      have hfactor :
          x ^ 2 / ((2 * (n + k) + 1) * (2 * (n + k) + 2) : ℝ) ≤ r := by
        have hD : (0 : ℝ) < ((2 * (n + k) + 1) * (2 * (n + k) + 2) : ℝ) := by
          positivity
        rw [div_le_iff₀ hD]
        have hmono : (r * ((2 * k + 1) * (2 * k + 2)) : ℝ)
            ≤ r * ((2 * (n + k) + 1) * (2 * (n + k) + 2)) := by
          have : ((2 * k + 1) * (2 * k + 2) : ℝ)
              ≤ (2 * (n + k) + 1) * (2 * (n + k) + 2) := by
            have hn : (0 : ℝ) ≤ (n : ℝ) := Nat.cast_nonneg n
            nlinarith
          nlinarith
        linarith
      have hterm : (0 : ℝ) ≤ x ^ (2 * (n + k)) / (Nat.factorial (2 * (n + k)) : ℝ) := by
        have hf : (0 : ℝ) < (Nat.factorial (2 * (n + k)) : ℝ) := by
          exact_mod_cast Nat.factorial_pos (2 * (n + k))
        positivity
      calc x ^ (2 * (n + 1 + k)) / (Nat.factorial (2 * (n + 1 + k)) : ℝ)
          = x ^ (2 * (n + k)) / (Nat.factorial (2 * (n + k)) : ℝ)
              * (x ^ 2 / ((2 * (n + k) + 1) * (2 * (n + k) + 2))) := hstep
        _ ≤ x ^ (2 * (n + k)) / (Nat.factorial (2 * (n + k)) : ℝ) * r :=
            mul_le_mul_of_nonneg_left hfactor hterm
        _ ≤ x ^ (2 * k) / (Nat.factorial (2 * k) : ℝ) * r ^ n * r :=
            mul_le_mul_of_nonneg_right ih h0
        _ = x ^ (2 * k) / (Nat.factorial (2 * k) : ℝ) * r ^ (n + 1) := by ring

/-- Taylor bound for `cos`: the partial sum of the first `k` series terms is
within `x^(2k)/(2k)! · (1-r)⁻¹` of `cos x`. -/
theorem cos_taylor_tail (x : ℝ) (hx : 0 ≤ x) (k : ℕ) (r : ℝ) (h0 : 0 ≤ r)
    (h1 : r < 1) (hr : x ^ 2 ≤ r * ((2 * k + 1) * (2 * k + 2))) :
    |Real.cos x - ∑ n ∈ Finset.range k, (-1 : ℝ) ^ n * x ^ (2 * n) / (Nat.factorial (2 * n) : ℝ)|
      ≤ x ^ (2 * k) / (Nat.factorial (2 * k) : ℝ) * (1 - r)⁻¹ :=
  abs_sub_sum_le_of_geom_bound _ _ (Real.hasSum_cos x) k _ r h0 h1
    (cos_term_bound x hx k r h0 hr)

/-- `sin 3` to 13 decimal places, via 12 series terms. -/
theorem sin3_approx :
    |Real.sin 3 - (26478518885433231 / 187631217213440000 : ℝ)| ≤ 1 / 10 ^ 13 := by
  have h := sin_taylor_tail 3 (by norm_num) 12 (9 / 702) (by norm_num) (by norm_num)
    (by norm_num)
  have hsum : (∑ n ∈ Finset.range 12,
      (-1 : ℝ) ^ n * 3 ^ (2 * n + 1) / (Nat.factorial (2 * n + 1) : ℝ))
        = 26478518885433231 / 187631217213440000 := by
    simp only [Finset.sum_range_succ, Finset.sum_range_zero]
    norm_num [Nat.factorial]
  have hrhs : (3 : ℝ) ^ (2 * 12 + 1) / (Nat.factorial (2 * 12 + 1) : ℝ)
      * (1 - 9 / 702)⁻¹ ≤ 1 / 10 ^ 13 := by
    norm_num [Nat.factorial]
  rw [hsum] at h
  linarith [abs_le.mp h]

/-- `cos 3` to 12 decimal places, via 12 series terms. -/
theorem cos3_approx :
    |Real.cos 3 - (-56533673051555969 / 57105153064960000 : ℝ)| ≤ 5 / 10 ^ 13 := by
  have h := cos_taylor_tail 3 (by norm_num) 12 (9 / 650) (by norm_num) (by norm_num)
    (by norm_num)
  have hsum : (∑ n ∈ Finset.range 12,
      (-1 : ℝ) ^ n * 3 ^ (2 * n) / (Nat.factorial (2 * n) : ℝ))
        = -56533673051555969 / 57105153064960000 := by
    simp only [Finset.sum_range_succ, Finset.sum_range_zero]
    norm_num [Nat.factorial]
  have hrhs : (3 : ℝ) ^ (2 * 12) / (Nat.factorial (2 * 12) : ℝ)
      * (1 - 9 / 650)⁻¹ ≤ 5 / 10 ^ 13 := by
    norm_num [Nat.factorial]
  rw [hsum] at h
  linarith [abs_le.mp h]

/-- `sin 2` to 13 decimal places, via 12 series terms. -/
theorem sin2_approx :
    |Real.sin 2 - (44836372945637818 / 49308808782358125 : ℝ)| ≤ 1 / 10 ^ 13 := by
  have h := sin_taylor_tail 2 (by norm_num) 12 (4 / 702) (by norm_num) (by norm_num)
    (by norm_num)
  have hsum : (∑ n ∈ Finset.range 12,
      (-1 : ℝ) ^ n * 2 ^ (2 * n + 1) / (Nat.factorial (2 * n + 1) : ℝ))
        = 44836372945637818 / 49308808782358125 := by
    simp only [Finset.sum_range_succ, Finset.sum_range_zero]
    norm_num [Nat.factorial]
  have hrhs : (2 : ℝ) ^ (2 * 12 + 1) / (Nat.factorial (2 * 12 + 1) : ℝ)
      * (1 - 4 / 702)⁻¹ ≤ 1 / 10 ^ 13 := by
    norm_num [Nat.factorial]
  rw [hsum] at h
  linarith [abs_le.mp h]

/-- `cos 2` to 13 decimal places, via 12 series terms. -/
theorem cos2_approx :
    |Real.cos 2 - (-892161077768969 / 2143861251406875 : ℝ)| ≤ 1 / 10 ^ 13 := by
  have h := cos_taylor_tail 2 (by norm_num) 12 (4 / 650) (by norm_num) (by norm_num)
    (by norm_num)
  have hsum : (∑ n ∈ Finset.range 12,
      (-1 : ℝ) ^ n * 2 ^ (2 * n) / (Nat.factorial (2 * n) : ℝ))
        = -892161077768969 / 2143861251406875 := by
    simp only [Finset.sum_range_succ, Finset.sum_range_zero]
    norm_num [Nat.factorial]
  have hrhs : (2 : ℝ) ^ (2 * 12) / (Nat.factorial (2 * 12) : ℝ)
      * (1 - 4 / 650)⁻¹ ≤ 1 / 10 ^ 13 := by
    norm_num [Nat.factorial]
  rw [hsum] at h
  linarith [abs_le.mp h]

/-! ### Claim C6: the second integration problem -/

/-- **C6.** The second integration problem is computed over the interval
`[2,3]` in both paths — the analytical cell substitutes upper bound `3` and
lower bound `2` into the antiderivative `d1` (whose derivative is indeed the
integrand `x² + 4·x·sin x`), and the sampling cell uses uniform draws with
measure `3 - 2` — and the analytical value is within `10⁻⁹` of
`11.811358925098283` (= `11811358925098283 / 10¹⁵`). -/
theorem analytical_integral_second :
    analytical_2 = d1_second 3 - d1_second 2
      ∧ (∀ x : ℝ, HasDerivAt d1_second (x ^ 2 + 4 * x * Real.sin x) x)
      ∧ (∀ (N : ℕ) (xs : ℕ → ℝ), mc_integral_2 N xs
          = (3 - 2) * (((List.range N).map
              (fun i => xs i ^ 2 + 4 * xs i * Real.sin (xs i))).sum / (N : ℝ)))
      ∧ |analytical_2 - 11811358925098283 / 10 ^ 15| < 1 / 10 ^ 9 := by
  refine ⟨rfl, ?_, ?_, ?_⟩
  · intro x
    have hpow : HasDerivAt (fun y : ℝ => y ^ 3 / 3) (x ^ 2) x := by
      have := (hasDerivAt_pow 3 x).div_const 3
      norm_num at this
      simpa using this
    have hmul : HasDerivAt (fun y : ℝ => y * Real.cos y)
        (1 * Real.cos x + x * -Real.sin x) x :=
      (hasDerivAt_id x).mul (Real.hasDerivAt_cos x)
    have hsin : HasDerivAt Real.sin (Real.cos x) x := Real.hasDerivAt_sin x
    have h := hpow.add (((hmul.neg).add hsin).const_mul 4)
    convert h using 1
    ring
  · intro N xs
    rw [mc_integral_2, foldl_add_eq_sum]
    ring
  · have he : analytical_2
        = 19 / 3 + 4 * Real.sin 3 - 12 * Real.cos 3 - 4 * Real.sin 2
          + 8 * Real.cos 2 := by
      simp only [analytical_2, d1_second]
      ring
    obtain ⟨l1, u1⟩ := abs_le.mp sin3_approx
    obtain ⟨l2, u2⟩ := abs_le.mp cos3_approx
    obtain ⟨l3, u3⟩ := abs_le.mp sin2_approx
    obtain ⟨l4, u4⟩ := abs_le.mp cos2_approx
    rw [he, abs_lt]
    constructor <;> linarith

/-! ### The 2D analytical cell

The 2D analytical cell chains the symbolic integrations in order:
`d1 = integrate(cos(x**4) + 3*y**2, x)`, `d1.subs(x, 6) - d1.subs(x, 4)`,
`d2 = integrate(..., y)`, `sol = d2.subs(y, 1) - d2.subs(y, 0)`.  The
antiderivative in `x` that the symbolic engine produces for `cos(x⁴)` is not
elementary, so the substitute-and-subtract steps are modelled by their
definite-integral semantics (they agree by the fundamental theorem of
calculus): integrate over `x ∈ [4,6]` first, then over `y ∈ [0,1]`. -/

/-- The `x`-chain of the 2D analytical cell:
`d1.subs(x, 6) - d1.subs(x, 4)`, as a function of `y`. -/
noncomputable def inner_integral (y : ℝ) : ℝ :=
  ∫ x in (4 : ℝ)..6, (Real.cos (x ^ 4) + 3 * y ^ 2)

/-- The full chain of the 2D analytical cell:
`sol = d2.subs(y, 1) - d2.subs(y, 0)`. -/
noncomputable def analytical_3 : ℝ :=
  ∫ y in (0 : ℝ)..1, inner_integral y

/-- The non-elementary part of the 2D analytical value. -/
noncomputable def intCosQuartic : ℝ :=
  ∫ x in (4 : ℝ)..6, Real.cos (x ^ 4)

/-! ### High-precision values of `sin`/`cos` at `256` and `1296`

The boundary terms of the integration-by-parts expansion of `intCosQuartic`
involve `sin`/`cos` at `4⁴ = 256` and `6⁴ = 1296`.  These are reduced modulo
`π` using Mathlib's 20-digit bounds on `π` and then evaluated by the Taylor
bounds above. -/

/-- `sin` is 1-Lipschitz. -/
theorem abs_sin_sub_sin_le (a b : ℝ) : |Real.sin a - Real.sin b| ≤ |a - b| := by
  rw [Real.sin_sub_sin]
  calc |2 * Real.sin ((a - b) / 2) * Real.cos ((a + b) / 2)|
      = 2 * |Real.sin ((a - b) / 2)| * |Real.cos ((a + b) / 2)| := by
        rw [abs_mul, abs_mul, abs_two]
    _ ≤ 2 * |(a - b) / 2| * 1 := by
        have h1 := Real.abs_sin_le_abs (x := (a - b) / 2)
        have h2 := Real.abs_cos_le_one ((a + b) / 2)
        have h3 : (0 : ℝ) ≤ 2 * |Real.sin ((a - b) / 2)| := by positivity
        nlinarith [abs_nonneg ((a - b) / 2)]
    _ = |a - b| := by rw [abs_div, abs_two]; ring

/-- `cos` is 1-Lipschitz. -/
theorem abs_cos_sub_cos_le (a b : ℝ) : |Real.cos a - Real.cos b| ≤ |a - b| := by
  rw [Real.cos_sub_cos]
  calc |-2 * Real.sin ((a + b) / 2) * Real.sin ((a - b) / 2)|
      = 2 * |Real.sin ((a + b) / 2)| * |Real.sin ((a - b) / 2)| := by
        rw [abs_mul, abs_mul, abs_neg, abs_two]
    _ ≤ 2 * 1 * |(a - b) / 2| := by
        have h1 := Real.abs_sin_le_abs (x := (a - b) / 2)
        have h2 := Real.abs_sin_le_one ((a + b) / 2)
        have h3 : (0 : ℝ) ≤ |Real.sin ((a - b) / 2)| := abs_nonneg _
        nlinarith [abs_nonneg ((a - b) / 2)]
    _ = |a - b| := by rw [abs_div, abs_two]; ring

/-- Taylor evaluation of `sin` at `θ₁ ≈ 256 - 81π`. -/
theorem sin_theta1_approx :
    |Real.sin (1530995059227 / 10 ^ 12) - 999208034107 / 10 ^ 12| ≤ 2 / 10 ^ 12 := by
  have h := sin_taylor_tail (1530995059227 / 10 ^ 12) (by norm_num) 12 (3 / 702)
    (by norm_num) (by norm_num) (by norm_num)
  have h2 : |(∑ n ∈ Finset.range 12, (-1 : ℝ) ^ n * (1530995059227 / 10 ^ 12) ^ (2 * n + 1)
        / (Nat.factorial (2 * n + 1) : ℝ)) - 999208034107 / 10 ^ 12| ≤ 1 / 10 ^ 12 := by
    rw [abs_le]
    constructor <;>
      [skip; skip] <;>
      · simp only [Finset.sum_range_succ, Finset.sum_range_zero]
        norm_num [Nat.factorial]
  have h3 : (1530995059227 / 10 ^ 12 : ℝ) ^ (2 * 12 + 1)
      / (Nat.factorial (2 * 12 + 1) : ℝ) * (1 - 3 / 702)⁻¹ ≤ 1 / 10 ^ 12 := by
    norm_num [Nat.factorial]
  have t1 := abs_le.mp h
  have t2 := abs_le.mp h2
  rw [abs_le]
  constructor <;> linarith

/-- Taylor evaluation of `cos` at `θ₁ ≈ 256 - 81π`. -/
theorem cos_theta1_approx :
    |Real.cos (1530995059227 / 10 ^ 12) - 39790759931 / 10 ^ 12| ≤ 2 / 10 ^ 12 := by
  have h := cos_taylor_tail (1530995059227 / 10 ^ 12) (by norm_num) 12 (3 / 650)
    (by norm_num) (by norm_num) (by norm_num)
  have h2 : |(∑ n ∈ Finset.range 12, (-1 : ℝ) ^ n * (1530995059227 / 10 ^ 12) ^ (2 * n)
        / (Nat.factorial (2 * n) : ℝ)) - 39790759931 / 10 ^ 12| ≤ 1 / 10 ^ 12 := by
    rw [abs_le]
    constructor <;>
      [skip; skip] <;>
      · simp only [Finset.sum_range_succ, Finset.sum_range_zero]
        norm_num [Nat.factorial]
  have h3 : (1530995059227 / 10 ^ 12 : ℝ) ^ (2 * 12)
      / (Nat.factorial (2 * 12) : ℝ) * (1 - 3 / 650)⁻¹ ≤ 1 / 10 ^ 12 := by
    norm_num [Nat.factorial]
  have t1 := abs_le.mp h
  have t2 := abs_le.mp h2
  rw [abs_le]
  constructor <;> linarith

/-- Taylor evaluation of `sin` at `θ₂ ≈ 1296 - 412π`. -/
theorem sin_theta2_approx :
    |Real.sin (1663826721005 / 10 ^ 12) - 995675792936 / 10 ^ 12| ≤ 2 / 10 ^ 12 := by
  have h := sin_taylor_tail (1663826721005 / 10 ^ 12) (by norm_num) 12 (3 / 702)
    (by norm_num) (by norm_num) (by norm_num)
  have h2 : |(∑ n ∈ Finset.range 12, (-1 : ℝ) ^ n * (1663826721005 / 10 ^ 12) ^ (2 * n + 1)
        / (Nat.factorial (2 * n + 1) : ℝ)) - 995675792936 / 10 ^ 12| ≤ 1 / 10 ^ 12 := by
    rw [abs_le]
    constructor <;>
      [skip; skip] <;>
      · simp only [Finset.sum_range_succ, Finset.sum_range_zero]
        norm_num [Nat.factorial]
  have h3 : (1663826721005 / 10 ^ 12 : ℝ) ^ (2 * 12 + 1)
      / (Nat.factorial (2 * 12 + 1) : ℝ) * (1 - 3 / 702)⁻¹ ≤ 1 / 10 ^ 12 := by
    norm_num [Nat.factorial]
  have t1 := abs_le.mp h
  have t2 := abs_le.mp h2
  rw [abs_le]
  constructor <;> linarith

/-- Taylor evaluation of `cos` at `θ₂ ≈ 1296 - 412π`. -/
theorem cos_theta2_approx :
    |Real.cos (1663826721005 / 10 ^ 12) + 92896261284 / 10 ^ 12| ≤ 2 / 10 ^ 12 := by
  have h := cos_taylor_tail (1663826721005 / 10 ^ 12) (by norm_num) 12 (3 / 650)
    (by norm_num) (by norm_num) (by norm_num)
  have h2 : |(∑ n ∈ Finset.range 12, (-1 : ℝ) ^ n * (1663826721005 / 10 ^ 12) ^ (2 * n)
        / (Nat.factorial (2 * n) : ℝ)) + 92896261284 / 10 ^ 12| ≤ 1 / 10 ^ 12 := by
    rw [abs_le]
    constructor <;>
      [skip; skip] <;>
      · simp only [Finset.sum_range_succ, Finset.sum_range_zero]
        norm_num [Nat.factorial]
  have h3 : (1663826721005 / 10 ^ 12 : ℝ) ^ (2 * 12)
      / (Nat.factorial (2 * 12) : ℝ) * (1 - 3 / 650)⁻¹ ≤ 1 / 10 ^ 12 := by
    norm_num [Nat.factorial]
  have t1 := abs_le.mp h
  have t2 := abs_le.mp h2
  rw [abs_le]
  constructor <;> linarith

/-- `sin 256`, via the reduction `256 = (256 - 81π) + π + 40·2π`. -/
theorem sin256_approx :
    |Real.sin 256 + 999208034107 / 10 ^ 12| ≤ 5 / 10 ^ 12 := by
  have hred : Real.sin 256 = -Real.sin (256 - 81 * Real.pi) := by
    have h1 : (((256 - 81 * Real.pi) + Real.pi) + (40 : ℕ) * (2 * Real.pi)) = (256 : ℝ) := by
      push_cast
      ring
    calc Real.sin 256
        = Real.sin (((256 - 81 * Real.pi) + Real.pi) + (40 : ℕ) * (2 * Real.pi)) := by
          rw [h1]
      _ = -Real.sin (256 - 81 * Real.pi) := by
          rw [Real.sin_add_nat_mul_two_pi, Real.sin_add_pi]
  have hθ : |(256 - 81 * Real.pi) - 1530995059227 / 10 ^ 12| ≤ 1 / 10 ^ 12 := by
    have h1 := Real.pi_gt_d20
    have h2 := Real.pi_lt_d20
    rw [abs_le]
    constructor <;> linarith
  have h4 := abs_le.mp
    ((abs_sin_sub_sin_le (256 - 81 * Real.pi) (1530995059227 / 10 ^ 12)).trans hθ)
  have h5 := abs_le.mp sin_theta1_approx
  rw [hred, abs_le]
  constructor <;> linarith

/-- `cos 256`, via the reduction `256 = (256 - 81π) + π + 40·2π`. -/
theorem cos256_approx :
    |Real.cos 256 + 39790759931 / 10 ^ 12| ≤ 5 / 10 ^ 12 := by
  have hred : Real.cos 256 = -Real.cos (256 - 81 * Real.pi) := by
    have h1 : (((256 - 81 * Real.pi) + Real.pi) + (40 : ℕ) * (2 * Real.pi)) = (256 : ℝ) := by
      push_cast
      ring
    calc Real.cos 256
        = Real.cos (((256 - 81 * Real.pi) + Real.pi) + (40 : ℕ) * (2 * Real.pi)) := by
          rw [h1]
      _ = -Real.cos (256 - 81 * Real.pi) := by
          rw [Real.cos_add_nat_mul_two_pi, Real.cos_add_pi]
  have hθ : |(256 - 81 * Real.pi) - 1530995059227 / 10 ^ 12| ≤ 1 / 10 ^ 12 := by
    have h1 := Real.pi_gt_d20
    have h2 := Real.pi_lt_d20
    rw [abs_le]
    constructor <;> linarith
  have h4 := abs_le.mp
    ((abs_cos_sub_cos_le (256 - 81 * Real.pi) (1530995059227 / 10 ^ 12)).trans hθ)
  have h5 := abs_le.mp cos_theta1_approx
  rw [hred, abs_le]
  constructor <;> linarith

/-- `sin 1296`, via the reduction `1296 = (1296 - 412π) + 206·2π`. -/
theorem sin1296_approx :
    |Real.sin 1296 - 995675792936 / 10 ^ 12| ≤ 5 / 10 ^ 12 := by
  have hred : Real.sin 1296 = Real.sin (1296 - 412 * Real.pi) := by
    have h1 : ((1296 - 412 * Real.pi) + (206 : ℕ) * (2 * Real.pi)) = (1296 : ℝ) := by
      push_cast
      ring
    calc Real.sin 1296
        = Real.sin ((1296 - 412 * Real.pi) + (206 : ℕ) * (2 * Real.pi)) := by
          rw [h1]
      _ = Real.sin (1296 - 412 * Real.pi) := by
          rw [Real.sin_add_nat_mul_two_pi]
  have hθ : |(1296 - 412 * Real.pi) - 1663826721005 / 10 ^ 12| ≤ 1 / 10 ^ 12 := by
    have h1 := Real.pi_gt_d20
    have h2 := Real.pi_lt_d20
    rw [abs_le]
    constructor <;> linarith
  have h4 := abs_le.mp
    ((abs_sin_sub_sin_le (1296 - 412 * Real.pi) (1663826721005 / 10 ^ 12)).trans hθ)
  have h5 := abs_le.mp sin_theta2_approx
  rw [hred, abs_le]
  constructor <;> linarith

/-- `cos 1296`, via the reduction `1296 = (1296 - 412π) + 206·2π`. -/
theorem cos1296_approx :
    |Real.cos 1296 + 92896261284 / 10 ^ 12| ≤ 5 / 10 ^ 12 := by
  have hred : Real.cos 1296 = Real.cos (1296 - 412 * Real.pi) := by
    have h1 : ((1296 - 412 * Real.pi) + (206 : ℕ) * (2 * Real.pi)) = (1296 : ℝ) := by
      push_cast
      ring
    calc Real.cos 1296
        = Real.cos ((1296 - 412 * Real.pi) + (206 : ℕ) * (2 * Real.pi)) := by
          rw [h1]
      _ = Real.cos (1296 - 412 * Real.pi) := by
          rw [Real.cos_add_nat_mul_two_pi]
  have hθ : |(1296 - 412 * Real.pi) - 1663826721005 / 10 ^ 12| ≤ 1 / 10 ^ 12 := by
    have h1 := Real.pi_gt_d20
    have h2 := Real.pi_lt_d20
    rw [abs_le]
    constructor <;> linarith
  have h4 := abs_le.mp
    ((abs_cos_sub_cos_le (1296 - 412 * Real.pi) (1663826721005 / 10 ^ 12)).trans hθ)
  have h5 := abs_le.mp cos_theta2_approx
  rw [hred, abs_le]
  constructor <;> linarith

/-! ### Integration by parts for `∫ x in 4..6, cos (x⁴)` -/

open MeasureTheory intervalIntegral in
/-- `sin (x⁴) / xᵐ` is interval-integrable on `[4, 6]`. -/
theorem sin_div_integrable (m : ℕ) :
    IntervalIntegrable (fun x : ℝ => Real.sin (x ^ 4) / x ^ m)
      MeasureTheory.volume 4 6 := by
  apply ContinuousOn.intervalIntegrable
  apply ContinuousOn.div
  · exact (Real.continuous_sin.comp (continuous_pow 4)).continuousOn
  · exact (continuous_pow m).continuousOn
  · intro x hx
    rw [Set.uIcc_of_le (by norm_num : (4 : ℝ) ≤ 6)] at hx
    have : (0 : ℝ) < x := lt_of_lt_of_le (by norm_num) hx.1
    positivity

open MeasureTheory intervalIntegral in
/-- `cos (x⁴) / xᵐ` is interval-integrable on `[4, 6]`. -/
theorem cos_div_integrable (m : ℕ) :
    IntervalIntegrable (fun x : ℝ => Real.cos (x ^ 4) / x ^ m)
      MeasureTheory.volume 4 6 := by
  apply ContinuousOn.intervalIntegrable
  apply ContinuousOn.div
  · exact (Real.continuous_cos.comp (continuous_pow 4)).continuousOn
  · exact (continuous_pow m).continuousOn
  · intro x hx
    rw [Set.uIcc_of_le (by norm_num : (4 : ℝ) ≤ 6)] at hx
    have : (0 : ℝ) < x := lt_of_lt_of_le (by norm_num) hx.1
    positivity

/-- `cos (x⁴)` is interval-integrable on `[4, 6]`. -/
theorem cos_quartic_integrable :
    IntervalIntegrable (fun x : ℝ => Real.cos (x ^ 4)) MeasureTheory.volume 4 6 :=
  (Real.continuous_cos.comp (continuous_pow 4)).intervalIntegrable 4 6

/-- Derivative of the first parts function `sin (t⁴) / (4t³)`. -/
theorem hasDerivAt_g1 (x : ℝ) (hx : x ≠ 0) :
    HasDerivAt (fun t : ℝ => Real.sin (t ^ 4) / (4 * t ^ 3))
      (Real.cos (x ^ 4) - 3 / 4 * (Real.sin (x ^ 4) / x ^ 4)) x := by
  have hnum : HasDerivAt (fun t : ℝ => Real.sin (t ^ 4))
      (Real.cos (x ^ 4) * ((4 : ℕ) * x ^ 3)) x := by
    simpa [Function.comp] using
      (Real.hasDerivAt_sin (x ^ 4)).comp x (hasDerivAt_pow 4 x)
  have hden : HasDerivAt (fun t : ℝ => 4 * t ^ 3) (4 * ((3 : ℕ) * x ^ 2)) x :=
    (hasDerivAt_pow 3 x).const_mul 4
  have hd : (4 : ℝ) * x ^ 3 ≠ 0 := by positivity
  convert hnum.div hden hd using 1
  field_simp
  ring

/-- Derivative of the second parts function `-cos (t⁴) / (4t⁷)`. -/
theorem hasDerivAt_g2 (x : ℝ) (hx : x ≠ 0) :
    HasDerivAt (fun t : ℝ => -Real.cos (t ^ 4) / (4 * t ^ 7))
      (Real.sin (x ^ 4) / x ^ 4 + 7 / 4 * (Real.cos (x ^ 4) / x ^ 8)) x := by
  have hnum : HasDerivAt (fun t : ℝ => -Real.cos (t ^ 4))
      (Real.sin (x ^ 4) * ((4 : ℕ) * x ^ 3)) x := by
    have h1 := ((Real.hasDerivAt_cos (x ^ 4)).comp x (hasDerivAt_pow 4 x)).neg
    simpa [Function.comp] using h1
  have hden : HasDerivAt (fun t : ℝ => 4 * t ^ 7) (4 * ((7 : ℕ) * x ^ 6)) x :=
    (hasDerivAt_pow 7 x).const_mul 4
  have hd : (4 : ℝ) * x ^ 7 ≠ 0 := by positivity
  convert hnum.div hden hd using 1
  field_simp
  ring

/-- Derivative of the third parts function `sin (t⁴) / (4t¹¹)`. -/
theorem hasDerivAt_g3 (x : ℝ) (hx : x ≠ 0) :
    HasDerivAt (fun t : ℝ => Real.sin (t ^ 4) / (4 * t ^ 11))
      (Real.cos (x ^ 4) / x ^ 8 - 11 / 4 * (Real.sin (x ^ 4) / x ^ 12)) x := by
  have hnum : HasDerivAt (fun t : ℝ => Real.sin (t ^ 4))
      (Real.cos (x ^ 4) * ((4 : ℕ) * x ^ 3)) x := by
    simpa [Function.comp] using
      (Real.hasDerivAt_sin (x ^ 4)).comp x (hasDerivAt_pow 4 x)
  have hden : HasDerivAt (fun t : ℝ => 4 * t ^ 11) (4 * ((11 : ℕ) * x ^ 10)) x :=
    (hasDerivAt_pow 11 x).const_mul 4
  have hd : (4 : ℝ) * x ^ 11 ≠ 0 := by positivity
  convert hnum.div hden hd using 1
  field_simp
  ring

/-- Derivative of the fourth parts function `-cos (t⁴) / (4t¹⁵)`. -/
theorem hasDerivAt_g4 (x : ℝ) (hx : x ≠ 0) :
    HasDerivAt (fun t : ℝ => -Real.cos (t ^ 4) / (4 * t ^ 15))
      (Real.sin (x ^ 4) / x ^ 12 + 15 / 4 * (Real.cos (x ^ 4) / x ^ 16)) x := by
  have hnum : HasDerivAt (fun t : ℝ => -Real.cos (t ^ 4))
      (Real.sin (x ^ 4) * ((4 : ℕ) * x ^ 3)) x := by
    have h1 := ((Real.hasDerivAt_cos (x ^ 4)).comp x (hasDerivAt_pow 4 x)).neg
    simpa [Function.comp] using h1
  have hden : HasDerivAt (fun t : ℝ => 4 * t ^ 15) (4 * ((15 : ℕ) * x ^ 14)) x :=
    (hasDerivAt_pow 15 x).const_mul 4
  have hd : (4 : ℝ) * x ^ 15 ≠ 0 := by positivity
  convert hnum.div hden hd using 1
  field_simp
  ring

/-- Derivative of the fifth parts function `sin (t⁴) / (4t¹⁹)`. -/
theorem hasDerivAt_g5 (x : ℝ) (hx : x ≠ 0) :
    HasDerivAt (fun t : ℝ => Real.sin (t ^ 4) / (4 * t ^ 19))
      (Real.cos (x ^ 4) / x ^ 16 - 19 / 4 * (Real.sin (x ^ 4) / x ^ 20)) x := by
  have hnum : HasDerivAt (fun t : ℝ => Real.sin (t ^ 4))
      (Real.cos (x ^ 4) * ((4 : ℕ) * x ^ 3)) x := by
    simpa [Function.comp] using
      (Real.hasDerivAt_sin (x ^ 4)).comp x (hasDerivAt_pow 4 x)
  have hden : HasDerivAt (fun t : ℝ => 4 * t ^ 19) (4 * ((19 : ℕ) * x ^ 18)) x :=
    (hasDerivAt_pow 19 x).const_mul 4
  have hd : (4 : ℝ) * x ^ 19 ≠ 0 := by positivity
  convert hnum.div hden hd using 1
  field_simp
  ring

open MeasureTheory intervalIntegral in
/-- First integration by parts. -/
theorem parts_step1 :
    intCosQuartic
      = (Real.sin (6 ^ 4) / (4 * 6 ^ 3) - Real.sin (4 ^ 4) / (4 * 4 ^ 3))
        + 3 / 4 * ∫ x in (4 : ℝ)..6, Real.sin (x ^ 4) / x ^ 4 := by
  have hderiv : ∀ x ∈ Set.uIcc (4 : ℝ) 6,
      HasDerivAt (fun t : ℝ => Real.sin (t ^ 4) / (4 * t ^ 3))
        (Real.cos (x ^ 4) - 3 / 4 * (Real.sin (x ^ 4) / x ^ 4)) x := by
    intro x hx
    rw [Set.uIcc_of_le (by norm_num : (4 : ℝ) ≤ 6)] at hx
    have : (0 : ℝ) < x := lt_of_lt_of_le (by norm_num) hx.1
    exact hasDerivAt_g1 x this.ne'
  have hint : IntervalIntegrable
      (fun x : ℝ => Real.cos (x ^ 4) - 3 / 4 * (Real.sin (x ^ 4) / x ^ 4))
      volume 4 6 :=
    cos_quartic_integrable.sub ((sin_div_integrable 4).const_mul (3 / 4))
  have hftc := integral_eq_sub_of_hasDerivAt hderiv hint
  have hsplit :
      (∫ x in (4 : ℝ)..6, (Real.cos (x ^ 4) - 3 / 4 * (Real.sin (x ^ 4) / x ^ 4)))
        = intCosQuartic - 3 / 4 * ∫ x in (4 : ℝ)..6, Real.sin (x ^ 4) / x ^ 4 := by
    rw [integral_sub cos_quartic_integrable ((sin_div_integrable 4).const_mul (3 / 4)),
      integral_const_mul]
    rfl
  rw [hsplit] at hftc
  linarith [hftc]

open MeasureTheory intervalIntegral in
/-- Second integration by parts. -/
theorem parts_step2 :
    (∫ x in (4 : ℝ)..6, Real.sin (x ^ 4) / x ^ 4)
      = (-Real.cos (6 ^ 4) / (4 * 6 ^ 7) - -Real.cos (4 ^ 4) / (4 * 4 ^ 7))
        - 7 / 4 * ∫ x in (4 : ℝ)..6, Real.cos (x ^ 4) / x ^ 8 := by
  have hderiv : ∀ x ∈ Set.uIcc (4 : ℝ) 6,
      HasDerivAt (fun t : ℝ => -Real.cos (t ^ 4) / (4 * t ^ 7))
        (Real.sin (x ^ 4) / x ^ 4 + 7 / 4 * (Real.cos (x ^ 4) / x ^ 8)) x := by
    intro x hx
    rw [Set.uIcc_of_le (by norm_num : (4 : ℝ) ≤ 6)] at hx
    have : (0 : ℝ) < x := lt_of_lt_of_le (by norm_num) hx.1
    exact hasDerivAt_g2 x this.ne'
  have hint : IntervalIntegrable
      (fun x : ℝ => Real.sin (x ^ 4) / x ^ 4 + 7 / 4 * (Real.cos (x ^ 4) / x ^ 8))
      volume 4 6 :=
    (sin_div_integrable 4).add ((cos_div_integrable 8).const_mul (7 / 4))
  have hftc := integral_eq_sub_of_hasDerivAt hderiv hint
  have hsplit :
      (∫ x in (4 : ℝ)..6,
          (Real.sin (x ^ 4) / x ^ 4 + 7 / 4 * (Real.cos (x ^ 4) / x ^ 8)))
        = (∫ x in (4 : ℝ)..6, Real.sin (x ^ 4) / x ^ 4)
          + 7 / 4 * ∫ x in (4 : ℝ)..6, Real.cos (x ^ 4) / x ^ 8 := by
    rw [integral_add (sin_div_integrable 4) ((cos_div_integrable 8).const_mul (7 / 4)),
      integral_const_mul]
  rw [hsplit] at hftc
  linarith [hftc]

open MeasureTheory intervalIntegral in
/-- Third integration by parts. -/
theorem parts_step3 :
    (∫ x in (4 : ℝ)..6, Real.cos (x ^ 4) / x ^ 8)
      = (Real.sin (6 ^ 4) / (4 * 6 ^ 11) - Real.sin (4 ^ 4) / (4 * 4 ^ 11))
        + 11 / 4 * ∫ x in (4 : ℝ)..6, Real.sin (x ^ 4) / x ^ 12 := by
  have hderiv : ∀ x ∈ Set.uIcc (4 : ℝ) 6,
      HasDerivAt (fun t : ℝ => Real.sin (t ^ 4) / (4 * t ^ 11))
        (Real.cos (x ^ 4) / x ^ 8 - 11 / 4 * (Real.sin (x ^ 4) / x ^ 12)) x := by
    intro x hx
    rw [Set.uIcc_of_le (by norm_num : (4 : ℝ) ≤ 6)] at hx
    have : (0 : ℝ) < x := lt_of_lt_of_le (by norm_num) hx.1
    exact hasDerivAt_g3 x this.ne'
  have hint : IntervalIntegrable
      (fun x : ℝ => Real.cos (x ^ 4) / x ^ 8 - 11 / 4 * (Real.sin (x ^ 4) / x ^ 12))
      volume 4 6 :=
    (cos_div_integrable 8).sub ((sin_div_integrable 12).const_mul (11 / 4))
  have hftc := integral_eq_sub_of_hasDerivAt hderiv hint
  have hsplit :
      (∫ x in (4 : ℝ)..6,
          (Real.cos (x ^ 4) / x ^ 8 - 11 / 4 * (Real.sin (x ^ 4) / x ^ 12)))
        = (∫ x in (4 : ℝ)..6, Real.cos (x ^ 4) / x ^ 8)
          - 11 / 4 * ∫ x in (4 : ℝ)..6, Real.sin (x ^ 4) / x ^ 12 := by
    rw [integral_sub (cos_div_integrable 8) ((sin_div_integrable 12).const_mul (11 / 4)),
      integral_const_mul]
  rw [hsplit] at hftc
  linarith [hftc]

open MeasureTheory intervalIntegral in
/-- Fourth integration by parts. -/
theorem parts_step4 :
    (∫ x in (4 : ℝ)..6, Real.sin (x ^ 4) / x ^ 12)
      = (-Real.cos (6 ^ 4) / (4 * 6 ^ 15) - -Real.cos (4 ^ 4) / (4 * 4 ^ 15))
        - 15 / 4 * ∫ x in (4 : ℝ)..6, Real.cos (x ^ 4) / x ^ 16 := by
  have hderiv : ∀ x ∈ Set.uIcc (4 : ℝ) 6,
      HasDerivAt (fun t : ℝ => -Real.cos (t ^ 4) / (4 * t ^ 15))
        (Real.sin (x ^ 4) / x ^ 12 + 15 / 4 * (Real.cos (x ^ 4) / x ^ 16)) x := by
    intro x hx
    rw [Set.uIcc_of_le (by norm_num : (4 : ℝ) ≤ 6)] at hx
    have : (0 : ℝ) < x := lt_of_lt_of_le (by norm_num) hx.1
    exact hasDerivAt_g4 x this.ne'
  have hint : IntervalIntegrable
      (fun x : ℝ => Real.sin (x ^ 4) / x ^ 12 + 15 / 4 * (Real.cos (x ^ 4) / x ^ 16))
      volume 4 6 :=
    (sin_div_integrable 12).add ((cos_div_integrable 16).const_mul (15 / 4))
  have hftc := integral_eq_sub_of_hasDerivAt hderiv hint
  have hsplit :
      (∫ x in (4 : ℝ)..6,
          (Real.sin (x ^ 4) / x ^ 12 + 15 / 4 * (Real.cos (x ^ 4) / x ^ 16)))
        = (∫ x in (4 : ℝ)..6, Real.sin (x ^ 4) / x ^ 12)
          + 15 / 4 * ∫ x in (4 : ℝ)..6, Real.cos (x ^ 4) / x ^ 16 := by
    rw [integral_add (sin_div_integrable 12) ((cos_div_integrable 16).const_mul (15 / 4)),
      integral_const_mul]
  rw [hsplit] at hftc
  linarith [hftc]

open MeasureTheory intervalIntegral in
/-- Fifth integration by parts. -/
theorem parts_step5 :
    (∫ x in (4 : ℝ)..6, Real.cos (x ^ 4) / x ^ 16)
      = (Real.sin (6 ^ 4) / (4 * 6 ^ 19) - Real.sin (4 ^ 4) / (4 * 4 ^ 19))
        + 19 / 4 * ∫ x in (4 : ℝ)..6, Real.sin (x ^ 4) / x ^ 20 := by
  have hderiv : ∀ x ∈ Set.uIcc (4 : ℝ) 6,
      HasDerivAt (fun t : ℝ => Real.sin (t ^ 4) / (4 * t ^ 19))
        (Real.cos (x ^ 4) / x ^ 16 - 19 / 4 * (Real.sin (x ^ 4) / x ^ 20)) x := by
    intro x hx
    rw [Set.uIcc_of_le (by norm_num : (4 : ℝ) ≤ 6)] at hx
    have : (0 : ℝ) < x := lt_of_lt_of_le (by norm_num) hx.1
    exact hasDerivAt_g5 x this.ne'
  have hint : IntervalIntegrable
      (fun x : ℝ => Real.cos (x ^ 4) / x ^ 16 - 19 / 4 * (Real.sin (x ^ 4) / x ^ 20))
      volume 4 6 :=
    (cos_div_integrable 16).sub ((sin_div_integrable 20).const_mul (19 / 4))
  have hftc := integral_eq_sub_of_hasDerivAt hderiv hint
  have hsplit :
      (∫ x in (4 : ℝ)..6,
          (Real.cos (x ^ 4) / x ^ 16 - 19 / 4 * (Real.sin (x ^ 4) / x ^ 20)))
        = (∫ x in (4 : ℝ)..6, Real.cos (x ^ 4) / x ^ 16)
          - 19 / 4 * ∫ x in (4 : ℝ)..6, Real.sin (x ^ 4) / x ^ 20 := by
    rw [integral_sub (cos_div_integrable 16) ((sin_div_integrable 20).const_mul (19 / 4)),
      integral_const_mul]
  rw [hsplit] at hftc
  linarith [hftc]

open MeasureTheory intervalIntegral in
/-- The remaining oscillatory integral is tiny. -/
theorem tail_integral_bound :
    |∫ x in (4 : ℝ)..6, Real.sin (x ^ 4) / x ^ 20| ≤ 2 / 4 ^ 20 := by
  have h : ∀ x ∈ Set.uIoc (4 : ℝ) 6, ‖Real.sin (x ^ 4) / x ^ 20‖ ≤ (4 : ℝ)⁻¹ ^ 20 := by
    intro x hx
    rw [Set.uIoc_of_le (by norm_num : (4 : ℝ) ≤ 6)] at hx
    have hx4 : (4 : ℝ) ≤ x := hx.1.le
    have hx0 : (0 : ℝ) < x := lt_of_lt_of_le (by norm_num) hx4
    rw [Real.norm_eq_abs, abs_div, abs_pow, abs_of_pos hx0]
    have h1 : |Real.sin (x ^ 4)| ≤ 1 := Real.abs_sin_le_one _
    have h2 : (4 : ℝ) ^ 20 ≤ x ^ 20 := pow_le_pow_left₀ (by norm_num) hx4 20
    have h3 : (0 : ℝ) < x ^ 20 := by positivity
    calc |Real.sin (x ^ 4)| / x ^ 20
        ≤ 1 / x ^ 20 := by gcongr
      _ ≤ 1 / 4 ^ 20 := by gcongr
      _ = (4 : ℝ)⁻¹ ^ 20 := by rw [inv_pow, one_div]
  have := norm_integral_le_of_norm_le_const h
  rw [Real.norm_eq_abs] at this
  calc |∫ x in (4 : ℝ)..6, Real.sin (x ^ 4) / x ^ 20|
      ≤ (4 : ℝ)⁻¹ ^ 20 * |(6 : ℝ) - 4| := this
    _ = 2 / 4 ^ 20 := by
        rw [inv_pow]
        norm_num

/-- The value of `∫ x in 4..6, cos (x⁴)`, to ten decimal places. -/
theorem intCosQuartic_bound :
    |intCosQuartic - 5055086749674 / 10 ^ 15| < 5 / 10 ^ 10 := by
  have s1 := parts_step1
  have s2 := parts_step2
  have s3 := parts_step3
  have s4 := parts_step4
  have s5 := parts_step5
  have e6 : ((6 : ℝ) ^ 4) = 1296 := by norm_num
  have e4 : ((4 : ℝ) ^ 4) = 256 := by norm_num
  rw [e6, e4] at s1 s2 s3 s4 s5
  have ht := abs_le.mp tail_integral_bound
  have a1 := abs_le.mp sin1296_approx
  have a2 := abs_le.mp sin256_approx
  have a3 := abs_le.mp cos1296_approx
  have a4 := abs_le.mp cos256_approx
  rw [abs_lt]
  constructor <;> nlinarith [s1, s2, s3, s4, s5, ht.1, ht.2, a1.1, a1.2, a2.1,
    a2.2, a3.1, a3.2, a4.1, a4.2]

open MeasureTheory intervalIntegral in
/-- The inner `x`-integration of the 2D analytical cell evaluates to
`intCosQuartic + 6 y²`. -/
theorem inner_integral_eval (y : ℝ) :
    inner_integral y = intCosQuartic + 6 * y ^ 2 := by
  rw [inner_integral,
    integral_add cos_quartic_integrable intervalIntegrable_const,
    intervalIntegral.integral_const]
  have h : (∫ x in (4 : ℝ)..6, Real.cos (x ^ 4)) = intCosQuartic := rfl
  rw [h, smul_eq_mul]
  ring

open MeasureTheory intervalIntegral in
/-- The chained 2D analytical computation evaluates to `intCosQuartic + 2`. -/
theorem analytical_3_eval : analytical_3 = intCosQuartic + 2 := by
  rw [analytical_3]
  rw [integral_congr (g := fun y : ℝ => intCosQuartic + 6 * y ^ 2)
    (fun y _ => inner_integral_eval y)]
  rw [integral_add intervalIntegrable_const
    (((continuous_const.mul (continuous_pow 2)).intervalIntegrable 0 1)),
    intervalIntegral.integral_const, integral_const_mul, integral_pow]
  norm_num

/-! ### Claim C7: the 2D analytical integration -/

/-- **C7.** The 2D analytical integration of `cos(x⁴) + 3y²` chains the
variables in order: the inner step integrates with respect to `x` and takes
the difference of the substitutions at the `x`-bounds `4` and `6` (evaluating
to `intCosQuartic + 6y²`), the outer step integrates the result with respect
to `y` between the `y`-bounds `0` and `1`, and the returned value is within
`10⁻⁹` of `2.005055086749674` (= `2005055086749674 / 10¹⁵`). -/
theorem analytical_integral_2d :
    analytical_3
        = (∫ y in (0 : ℝ)..1, ∫ x in (4 : ℝ)..6, (Real.cos (x ^ 4) + 3 * y ^ 2))
      ∧ (∀ y : ℝ, inner_integral y
          = (∫ x in (4 : ℝ)..6, Real.cos (x ^ 4)) + 6 * y ^ 2)
      ∧ analytical_3 = intCosQuartic + 2
      ∧ |analytical_3 - 2005055086749674 / 10 ^ 15| < 1 / 10 ^ 9 := by
  refine ⟨rfl, fun y => inner_integral_eval y, analytical_3_eval, ?_⟩
  rw [analytical_3_eval]
  have h := abs_lt.mp intCosQuartic_bound
  rw [abs_lt]
  constructor <;> linarith

end RiskEng
